import Mathlib

set_option maxRecDepth 8192

/-!
Verification development for the image-analysis service: the `/analyze`
FastAPI handler (`src/main.py`), the context composer (`src/context.py`)
and the Gemini model gateway (`src/vertex_client.py`).

Python dictionaries are modelled as insertion-ordered association lists
(`Obj`); JSON values as the inductive `JVal`.  The external collaborators
(cloud storage, the generative model, the HTTP framework) appear as
parameters of the environment `Env`; everything the repository's own code
does to the data is translated function by function below.
-/

/-- JSON-like dynamic values, the universe of Python `json.loads` results,
pandas scalar cells (which add `NaN`) and the dynamic dicts the service
passes around. -/
inductive JVal where
  | null
  | nan
  | bool (b : Bool)
  | num (q : ℚ)
  | str (s : String)
  | arr (elems : List JVal)
  | obj (fields : List (String × JVal))

/-- A Python dict with string keys: an insertion-ordered association list
whose keys are unique whenever it was built by dict operations. -/
abbrev Obj := List (String × JVal)

/-- `d.get(k)` / `d[k]`: first binding of `k` (Python dicts hold at most one). -/
def getKey : Obj → String → Option JVal
  | [], _ => none
  | (k', v) :: rest, k => if k' = k then some v else getKey rest k

/-- `k in d`. -/
def hasKey : Obj → String → Bool
  | [], _ => false
  | (k', _) :: rest, k => k' == k || hasKey rest k

/-- `d[k] = v`: overwrite in place when the key exists (keeping its
insertion position), otherwise append a new binding at the end. -/
def setKey : Obj → String → JVal → Obj
  | [], k, v => [(k, v)]
  | (k', v') :: rest, k, v =>
      if k' = k then (k, v) :: rest else (k', v') :: setKey rest k v

theorem getKey_setKey_self (o : Obj) (k : String) (v : JVal) :
    getKey (setKey o k v) k = some v := by
  induction o with
  | nil => simp [setKey, getKey]
  | cons p rest ih =>
      obtain ⟨k', v'⟩ := p
      by_cases h : k' = k
      · simp [setKey, h, getKey]
      · simp [setKey, h, getKey, ih]

theorem getKey_setKey_ne (o : Obj) (k k₂ : String) (v : JVal) (h : k ≠ k₂) :
    getKey (setKey o k v) k₂ = getKey o k₂ := by
  induction o with
  | nil => simp [setKey, getKey, h]
  | cons p rest ih =>
      obtain ⟨k', v'⟩ := p
      by_cases hk : k' = k
      · subst hk
        simp [setKey, getKey, h]
      · simp [setKey, hk, getKey, ih]

theorem hasKey_setKey_self (o : Obj) (k : String) (v : JVal) :
    hasKey (setKey o k v) k = true := by
  induction o with
  | nil => simp [setKey, hasKey]
  | cons p rest ih =>
      obtain ⟨k', v'⟩ := p
      by_cases h : k' = k
      · simp [setKey, h, hasKey]
      · simp [setKey, h, hasKey, ih]

theorem hasKey_setKey_ne (o : Obj) (k k₂ : String) (v : JVal) (h : k ≠ k₂) :
    hasKey (setKey o k v) k₂ = hasKey o k₂ := by
  induction o with
  | nil =>
      simp only [setKey, hasKey, Bool.or_false]
      exact beq_eq_false_iff_ne.mpr h
  | cons p rest ih =>
      obtain ⟨k', v'⟩ := p
      by_cases hk : k' = k
      · subst hk
        simp [setKey, hasKey, ih]
      · simp [setKey, hk, hasKey, ih]

theorem getKey_eq_none_iff (o : Obj) (k : String) :
    getKey o k = none ↔ hasKey o k = false := by
  induction o with
  | nil => simp [getKey, hasKey]
  | cons p rest ih =>
      obtain ⟨k', v'⟩ := p
      by_cases h : k' = k
      · simp [getKey, hasKey, h]
      · simp [getKey, hasKey, h, ih]

/-- `pandas.notna`: false exactly on `None` and float `NaN`. -/
def pdNotna : JVal → Bool
  | .null => false
  | .nan => false
  | _ => true

/-- Python truthiness of a value (`if not x` takes the branch when this is
true).  `NaN` is truthy in Python. -/
def pyFalsy : JVal → Bool
  | .null => true
  | .nan => false
  | .bool b => !b
  | .num q => q == 0
  | .str s => s.isEmpty
  | .arr xs => xs.isEmpty
  | .obj fs => fs.isEmpty

/-- Truthiness of `d.get(k)`, where an absent key yields `None` (falsy). -/
def pyFalsyOpt : Option JVal → Bool
  | none => true
  | some v => pyFalsy v

/-- Characters Python's `str.strip` (and `str.isspace`) treats as whitespace. -/
def pyIsSpace (c : Char) : Bool :=
  c == ' ' || c == '\t' || c == '\n' || c == '\r' || c == '\x0b' || c == '\x0c'

/-- `not s.strip()`: the string is empty or all whitespace. -/
def textBlank (s : String) : Bool :=
  s.data.all pyIsSpace

/-- Python `round` to an integer: round half to even (banker's rounding). -/
def roundHalfEven (q : ℚ) : ℤ :=
  let f := ⌊q⌋
  let r := q - (f : ℚ)
  if r < 1/2 then f
  else if (1/2 : ℚ) < r then f + 1
  else if f % 2 = 0 then f else f + 1

/-- `round(x, 2)`: the elapsed-seconds value rounded to 2 decimal places. -/
def round2 (q : ℚ) : ℚ := (roundHalfEven (q * 100) : ℚ) / 100

/-!
## A model of `json.loads`

`src/vertex_client.py` hands the (possibly fence-stripped) model text to
Python's `json.loads`.  The parser below is an executable recursive-descent
model of that call: strict strings (unescaped control characters are
rejected), objects with last-duplicate-wins keys, arrays, `true`/`false`/
`null`, numbers with optional fraction and exponent, and the non-standard
`NaN` literal Python accepts by default.  Recursion is fuelled so every
definition is structural and kernel-evaluable.
-/

/-- Skip JSON inter-token whitespace (space, tab, newline, carriage return). -/
def skipWs : List Char → List Char
  | [] => []
  | c :: cs => if c == ' ' || c == '\t' || c == '\n' || c == '\r' then skipWs cs else c :: cs

def isDigitCh (c : Char) : Bool := '0' ≤ c && c ≤ '9'

def digitVal (c : Char) : ℕ := c.toNat - 48

/-- Consume a run of decimal digits, returning the digits and the rest. -/
def takeDigits : List Char → (List Char × List Char)
  | [] => ([], [])
  | c :: cs =>
      if isDigitCh c then
        let (ds, rest) := takeDigits cs
        (c :: ds, rest)
      else ([], c :: cs)

def digitsToNat (ds : List Char) : ℕ :=
  ds.foldl (fun acc c => acc * 10 + digitVal c) 0

def isHexCh (c : Char) : Bool :=
  isDigitCh c || ('a' ≤ c && c ≤ 'f') || ('A' ≤ c && c ≤ 'F')

def hexVal (c : Char) : ℕ :=
  if isDigitCh c then c.toNat - 48
  else if 'a' ≤ c && c ≤ 'f' then c.toNat - 87
  else c.toNat - 55

/-- Body of a JSON string after the opening quote: literal characters up to
the closing quote, with the JSON escapes; unescaped control characters are
rejected (Python `json.loads` is strict by default). -/
def parseStringBody : List Char → Option (List Char × List Char)
  | [] => none
  | '"' :: cs => some ([], cs)
  | '\\' :: 'u' :: a :: b :: c :: d :: cs =>
      if isHexCh a && isHexCh b && isHexCh c && isHexCh d then
        match parseStringBody cs with
        | some (s, rest) =>
            some (Char.ofNat (((hexVal a * 16 + hexVal b) * 16 + hexVal c) * 16 + hexVal d) :: s, rest)
        | none => none
      else none
  | '\\' :: e :: cs =>
      (match e with
        | '"' => some '"'
        | '\\' => some '\\'
        | '/' => some '/'
        | 'b' => some '\x08'
        | 'f' => some '\x0c'
        | 'n' => some '\n'
        | 'r' => some '\r'
        | 't' => some '\t'
        | _ => none).bind fun ch =>
        match parseStringBody cs with
        | some (s, rest) => some (ch :: s, rest)
        | none => none
  | c :: cs =>
      if c.toNat < 32 then none
      else
        match parseStringBody cs with
        | some (s, rest) => some (c :: s, rest)
        | none => none

/-- A JSON number starting at the current position (after any sign handling
by the caller): integer part with the no-leading-zero rule, optional
fraction, optional exponent. -/
def parseNumBody (cs : List Char) : Option (ℚ × List Char) :=
  let (ints, r1) := takeDigits cs
  match ints with
  | [] => none
  | i0 :: irest =>
      if i0 == '0' && !irest.isEmpty then none
      else
        let intPart : ℚ := (digitsToNat ints : ℚ)
        let (mantissa, r2) : ℚ × List Char :=
          match r1 with
          | '.' :: r1' =>
              let (fs, r2') := takeDigits r1'
              if fs.isEmpty then ((0 : ℚ), ['.'])
              else (intPart + (digitsToNat fs : ℚ) / ((10 : ℚ) ^ fs.length), r2')
          | _ => (intPart, r1)
        -- a fraction dot without digits is a parse error; signalled above by
        -- returning an impossible rest that the caller rejects
        match r2 with
        | ['.'] =>
            (match r1 with
              | '.' :: r1' => (takeDigits r1').1.isEmpty
              | _ => false : Bool) |> fun bad =>
            if bad then none else some (mantissa, r2)
        | 'e' :: r3 | 'E' :: r3 =>
            let (sign, r4) : ℚ × List Char :=
              match r3 with
              | '+' :: r4' => (1, r4')
              | '-' :: r4' => (-1, r4')
              | _ => (1, r3)
            let (es, r5) := takeDigits r4
            if es.isEmpty then none
            else
              let e := digitsToNat es
              if sign = 1 then some (mantissa * (10 : ℚ) ^ e, r5)
              else some (mantissa / ((10 : ℚ) ^ e), r5)
        | _ => some (mantissa, r2)

mutual

/-- One JSON value at the head of the input (leading whitespace allowed),
returning the value and the unconsumed rest. -/
def parseVal : ℕ → List Char → Option (JVal × List Char)
  | 0, _ => none
  | fuel + 1, cs =>
      match skipWs cs with
      | [] => none
      | c :: cs' =>
          if c == '{' then
            match skipWs cs' with
            | '}' :: rest => some (.obj [], rest)
            | rest => parseMembers fuel rest []
          else if c == '[' then
            match skipWs cs' with
            | ']' :: rest => some (.arr [], rest)
            | rest => parseItems fuel rest []
          else if c == '"' then
            match parseStringBody cs' with
            | some (s, rest) => some (.str (String.mk s), rest)
            | none => none
          else
            match c :: cs' with
            | 't' :: 'r' :: 'u' :: 'e' :: rest => some (.bool true, rest)
            | 'f' :: 'a' :: 'l' :: 's' :: 'e' :: rest => some (.bool false, rest)
            | 'n' :: 'u' :: 'l' :: 'l' :: rest => some (.null, rest)
            | 'N' :: 'a' :: 'N' :: rest => some (.nan, rest)
            | '-' :: rest =>
                match parseNumBody rest with
                | some (q, r) => some (.num (-q), r)
                | none => none
            | rest =>
                if isDigitCh c then
                  match parseNumBody rest with
                  | some (q, r) => some (.num q, r)
                  | none => none
                else none

/-- The members of a JSON object after the opening brace (at least one);
duplicate keys overwrite, as in Python. -/
def parseMembers : ℕ → List Char → Obj → Option (JVal × List Char)
  | 0, _, _ => none
  | fuel + 1, cs, acc =>
      match skipWs cs with
      | '"' :: cs' =>
          match parseStringBody cs' with
          | none => none
          | some (k, r1) =>
              match skipWs r1 with
              | ':' :: r2 =>
                  match parseVal fuel r2 with
                  | none => none
                  | some (v, r3) =>
                      let acc' := setKey acc (String.mk k) v
                      match skipWs r3 with
                      | ',' :: r4 => parseMembers fuel r4 acc'
                      | '}' :: r4 => some (.obj acc', r4)
                      | _ => none
              | _ => none
      | _ => none

/-- The items of a JSON array after the opening bracket (at least one). -/
def parseItems : ℕ → List Char → List JVal → Option (JVal × List Char)
  | 0, _, _ => none
  | fuel + 1, cs, acc =>
      match parseVal fuel cs with
      | none => none
      | some (v, r1) =>
          match skipWs r1 with
          | ',' :: r2 => parseItems fuel r2 (acc ++ [v])
          | ']' :: r2 => some (.arr (acc ++ [v]), r2)
          | _ => none

end

/-- `json.loads` on a character list: exactly one JSON document, possibly
surrounded by whitespace. -/
def loadsL (cs : List Char) : Option JVal :=
  match parseVal (cs.length + 1) cs with
  | some (v, rest) => if (skipWs rest).isEmpty then some v else none
  | none => none

/-!
## The fenced-JSON extraction of `query_gemini`

`src/vertex_client.py` runs
`re.search(r"` + "```" + `json\n(.*)\n` + "```" + `", raw_text, re.DOTALL)`:
the match starts at the leftmost position where the opener fits and a
closer occurs later, and the greedy `(.*)` group extends to the last
closer in the text.  If a match is found its group is parsed, otherwise
the whole raw text is parsed.
-/

/-- Does the pattern occur at the head of the text? -/
def leadsWith : List Char → List Char → Bool
  | [], _ => true
  | _ :: _, [] => false
  | p :: ps, c :: cs => p == c && leadsWith ps cs

/-- All positions (0-based) at which the pattern occurs in the text. -/
def matchPositions (p cs : List Char) : List ℕ :=
  (List.range (cs.length + 1)).filter (fun i => leadsWith p (cs.drop i))

/-- The three backticks and `json` tag opening the fence, then a newline. -/
def fenceOpen : List Char := [Char.ofNat 96, Char.ofNat 96, Char.ofNat 96, 'j', 's', 'o', 'n', '\n']

/-- The newline and three backticks closing the fence. -/
def fenceClose : List Char := ['\n', Char.ofNat 96, Char.ofNat 96, Char.ofNat 96]

/-- The group captured by the fence regex, when it matches: the segment
between the leftmost viable opener and the last closer after it. -/
def fenceGroup (cs : List Char) : Option (List Char) :=
  match (matchPositions fenceOpen cs).filter
      (fun i => (matchPositions fenceClose cs).any (fun j => i + 8 ≤ j)) with
  | [] => none
  | i :: _ =>
      let j := ((matchPositions fenceClose cs).filter (fun j => i + 8 ≤ j)).foldl max 0
      some ((cs.drop (i + 8)).take (j - (i + 8)))

/-- Lines 109-116 of `src/vertex_client.py`: take the fenced group if the
regex matched, otherwise the whole raw text, and hand it to `json.loads`. -/
def extractJson (raw : String) : Option JVal :=
  match fenceGroup raw.data with
  | some g => loadsL g
  | none => loadsL raw.data

/-- Wrapping a text in an explicitly `json`-tagged fence, as the prompt
instructs models not to do but they often do anyway. -/
def fenceWrap (s : String) : String := "```json\n" ++ s ++ "\n```"

theorem leadsWith_append (p rest : List Char) : leadsWith p (p ++ rest) = true := by
  induction p with
  | nil => simp [leadsWith]
  | cons c cs ih => simp [leadsWith, ih]

theorem length_le_of_leadsWith (p cs : List Char) (h : leadsWith p cs = true) :
    p.length ≤ cs.length := by
  induction p generalizing cs with
  | nil => simp
  | cons c ps ih =>
      cases cs with
      | nil => simp [leadsWith] at h
      | cons c' cs' =>
          simp only [leadsWith, Bool.and_eq_true] at h
          simpa using ih cs' h.2

theorem mem_of_leadsWith (p cs : List Char) (x : Char) (h : leadsWith p cs = true)
    (hx : x ∈ p) : x ∈ cs := by
  induction p generalizing cs with
  | nil => simp at hx
  | cons c ps ih =>
      cases cs with
      | nil => simp [leadsWith] at h
      | cons c' cs' =>
          simp only [leadsWith, Bool.and_eq_true, beq_iff_eq] at h
          rcases List.mem_cons.mp hx with hx | hx
          · subst hx; rw [h.1]; exact List.mem_cons_self _ _
          · exact List.mem_cons_of_mem _ (ih cs' h.2 hx)

theorem drop_append_len {α : Type} (a b : List α) : (a ++ b).drop a.length = b := by
  induction a with
  | nil => simp
  | cons x xs ih => simp [ih]

theorem take_append_len {α : Type} (a b : List α) : (a ++ b).take a.length = a := by
  induction a with
  | nil => simp
  | cons x xs ih => simp [ih]

theorem foldl_max_le (l : List ℕ) (a m : ℕ) (ha : a ≤ m) (hb : ∀ x ∈ l, x ≤ m) :
    l.foldl max a ≤ m := by
  induction l generalizing a with
  | nil => simpa using ha
  | cons x xs ih =>
      simp only [List.foldl_cons]
      exact ih (max a x) (max_le ha (hb x (by simp))) (fun y hy => hb y (by simp [hy]))

theorem le_foldl_max (l : List ℕ) (a m : ℕ) (hm : m ∈ l ∨ m ≤ a) : m ≤ l.foldl max a := by
  induction l generalizing a with
  | nil =>
      rcases hm with h | h
      · simp at h
      · simpa using h
  | cons x xs ih =>
      simp only [List.foldl_cons]
      rcases hm with h | h
      · rcases List.mem_cons.mp h with h | h
        · exact ih (max a x) (Or.inr (h ▸ le_max_right a x))
        · exact ih (max a x) (Or.inl h)
      · exact ih (max a x) (Or.inr (le_trans h (le_max_left a x)))

theorem foldl_max_eq (l : List ℕ) (m : ℕ) (hm : m ∈ l) (hb : ∀ x ∈ l, x ≤ m) :
    l.foldl max 0 = m :=
  le_antisymm (foldl_max_le l 0 m (Nat.zero_le m) hb) (le_foldl_max l 0 m (Or.inl hm))

theorem mem_matchPositions (p cs : List Char) (i : ℕ) :
    i ∈ matchPositions p cs ↔ i ≤ cs.length ∧ leadsWith p (cs.drop i) = true := by
  simp [matchPositions, List.mem_filter, List.mem_range, Nat.lt_succ_iff]

theorem matchPositions_fenceClose_le (cs : List Char) (j : ℕ)
    (h : j ∈ matchPositions fenceClose cs) : j + 4 ≤ cs.length := by
  rcases (mem_matchPositions _ _ _).mp h with ⟨hj, hlw⟩
  have h4 := length_le_of_leadsWith _ _ hlw
  simp only [List.length_drop, fenceClose] at h4
  simp only [fenceClose, List.length_cons, List.length_nil] at h4 ⊢
  omega

theorem fenceGroup_fenceWrap_list (s : List Char) :
    fenceGroup (fenceOpen ++ s ++ fenceClose) = some s := by
  set cs : List Char := fenceOpen ++ s ++ fenceClose with hcs
  have hlen : cs.length = s.length + 12 := by
    simp [hcs, fenceOpen, fenceClose]
  have hopen0 : leadsWith fenceOpen cs = true := by
    rw [hcs, List.append_assoc]
    exact leadsWith_append _ _
  have hmmem : (s.length + 8) ∈ matchPositions fenceClose cs := by
    rw [mem_matchPositions]
    constructor
    · omega
    · have hlenos : (fenceOpen ++ s).length = s.length + 8 := by
        simp only [List.length_append, fenceOpen, List.length_cons, List.length_nil]
        omega
      have hdrop : cs.drop (s.length + 8) = fenceClose := by
        rw [hcs, ← hlenos, drop_append_len]
      rw [hdrop]
      have := leadsWith_append fenceClose []
      simpa using this
  have hbound : ∀ j ∈ matchPositions fenceClose cs, j ≤ s.length + 8 := by
    intro j hj
    have := matchPositions_fenceClose_le cs j hj
    omega
  have hq0 : ((matchPositions fenceClose cs).any (fun j => 0 + 8 ≤ j)) = true := by
    rw [List.any_eq_true]
    exact ⟨s.length + 8, hmmem, by simp⟩
  have h1 : matchPositions fenceOpen cs =
      0 :: (List.map Nat.succ (List.range cs.length)).filter
        (fun i => leadsWith fenceOpen (cs.drop i)) := by
    unfold matchPositions
    rw [List.range_succ_eq_map cs.length]
    simp only [List.filter_cons, List.drop_zero, hopen0, if_true]
  obtain ⟨tail, htail⟩ : ∃ t, (matchPositions fenceOpen cs).filter
      (fun i => (matchPositions fenceClose cs).any (fun j => i + 8 ≤ j)) = 0 :: t := by
    rw [h1]
    simp only [List.filter_cons, hq0, if_true]
    exact ⟨_, rfl⟩
  have hj : ((matchPositions fenceClose cs).filter (fun j => 0 + 8 ≤ j)).foldl max 0 =
      s.length + 8 := by
    apply foldl_max_eq
    · rw [List.mem_filter]
      exact ⟨hmmem, by simp⟩
    · intro x hx
      exact hbound x (List.mem_filter.mp hx).1
  have hdrop8 : cs.drop 8 = s ++ fenceClose := by
    have h8 : (8 : ℕ) = fenceOpen.length := by simp [fenceOpen]
    rw [hcs, List.append_assoc, h8, drop_append_len]
  unfold fenceGroup
  rw [htail]
  simp only [hj]
  rw [show s.length + 8 - (0 + 8) = s.length by omega, show (0 : ℕ) + 8 = 8 by omega,
    hdrop8, take_append_len]

theorem fenceGroup_eq_none_of_no_newline (cs : List Char) (h : '\n' ∉ cs) :
    fenceGroup cs = none := by
  have hempty : matchPositions fenceOpen cs = [] := by
    unfold matchPositions
    rw [List.filter_eq_nil_iff]
    intro i _
    intro hlw
    exact h (List.mem_of_mem_drop (mem_of_leadsWith _ _ _ hlw (by decide)))
  unfold fenceGroup
  rw [hempty]
  simp

/-!
## Model Gateway (`src/vertex_client.py`, `query_gemini`)

The call to the generative model itself is a black box; what the
repository's code does with the model response (lines 90-121) is embedded
below.  `ModelRaw` is the SDK response as the code observes it: the
candidate list (each with a finish reason and safety-rating metadata) and
the concatenated response text.  Dynamic string payloads produced by
Python interpolation of exception objects (`str(e)`) are abstracted to
fixed placeholder texts; every key of every returned dict is kept.
-/

/-- The Vertex SDK finish-reason enumeration, as compared against
`FinishReason.STOP` by the gateway. -/
inductive FinishReason where
  | STOP
  | MAX_TOKENS
  | SAFETY
  | RECITATION
  | OTHER
deriving DecidableEq

/-- `.name` of the enum member, interpolated into the failure details. -/
def FinishReason.name : FinishReason → String
  | .STOP => "STOP"
  | .MAX_TOKENS => "MAX_TOKENS"
  | .SAFETY => "SAFETY"
  | .RECITATION => "RECITATION"
  | .OTHER => "OTHER"

/-- One response candidate as the gateway reads it: its finish reason and
the `str(...)` rendering of its safety ratings. -/
structure Candidate where
  finishReason : FinishReason
  safetyRatings : String

/-- The model response as observed by the gateway code: the candidate list
and `response.text`. -/
structure ModelRaw where
  candidates : List Candidate
  text : String

/-- Outcome of the gateway's response processing: an error dict, a parsed
dict with `diagnostics.model` injected, or an uncaught `TypeError` when the
parsed JSON document is not an object (item assignment on a non-dict). -/
inductive QueryResult where
  | failure (d : Obj)
  | success (parsed : Obj)
  | crashed

/-- The fixed model identifier of the gateway. -/
def modelName : String := "gemini-2.5-flash"

/-- Error dict for a response with no candidates. -/
def emptyResponseDict : Obj :=
  [("error", .str "No candidates returned from model."),
   ("details", .str "The model response was empty.")]

/-- Error dict for a candidate that did not terminate with `STOP`, carrying
the finish reason's name and the candidate's safety ratings. -/
def prematureStopDict (c : Candidate) : Obj :=
  [("error", .str "Model generation stopped prematurely."),
   ("details", .str ("Finish Reason: " ++ c.finishReason.name ++
      ". This might be due to safety settings or an issue with the input.")),
   ("safety_ratings", .str c.safetyRatings)]

/-- Error dict for empty or whitespace-only response text. -/
def emptyTextDict : Obj :=
  [("error", .str "Model returned an empty text response."),
   ("details", .str "This could be due to safety filters or a malformed prompt.")]

/-- Error dict for text whose JSON extraction fails; carries the parser's
message (`str(e)`, abstracted to a placeholder) and the raw text. -/
def malformedDict (rawText : String) : Obj :=
  [("error", .str "Failed to parse model response."),
   ("details", .str "JSONDecodeError"),
   ("raw_text", .str rawText)]

/-- Lines 90-121 of `src/vertex_client.py`: the failure checks of
`query_gemini` in source order, then JSON extraction and the injection of
`diagnostics = a dict holding only the model name` into the parsed dict. -/
def query_gemini (response : ModelRaw) : QueryResult :=
  match response.candidates with
  | [] => .failure emptyResponseDict
  | c :: _ =>
      if c.finishReason ≠ FinishReason.STOP then
        .failure (prematureStopDict c)
      else if textBlank response.text then
        .failure emptyTextDict
      else
        match extractJson response.text with
        | none => .failure (malformedDict response.text)
        | some (.obj o) =>
            .success (setKey o "diagnostics" (.obj [("model", .str modelName)]))
        | some _ => .crashed

/-!
## Context Composer (`src/context.py`)

`compose_context_card` receives the product-spec row (a dict of pandas
scalars) and the dict of loaded context documents, in insertion order.
A context document whose `rules` value is not a list, or whose list holds
a non-dict entry, makes the Python loop raise (`AttributeError` or
`TypeError`); that is modelled by `Option`, `none` being the crash.
-/

/-- Lines 80-84 of `src/context.py`: the citable reformatting of one rule
entry — `id` and `text` via `.get` (absent becomes `None`), `mandatory`
via `.get` with default `False`.  A non-dict entry crashes the loop. -/
def ruleEntry : JVal → Option Obj
  | .obj ro =>
      some [("id", (getKey ro "id").getD .null),
            ("text", (getKey ro "text").getD .null),
            ("mandatory", (getKey ro "mandatory").getD (.bool false))]
  | _ => none

/-- Reformat every entry of one document's `rules` list, in list order. -/
def ruleEntries : List JVal → Option (List JVal)
  | [] => some []
  | r :: rs =>
      match ruleEntry r with
      | none => none
      | some e =>
          match ruleEntries rs with
          | none => none
          | some es => some (.obj e :: es)

/-- `context_card["rules"].append(...)` over a batch of new entries: the
card's rule list is extended in place.  The card always holds a `rules`
list (established by the initial card and preserved by every update), so
the fallthrough arm is unreachable. -/
def appendRules (card : Obj) (newRules : List JVal) : Obj :=
  match getKey card "rules" with
  | some (.arr old) => setKey card "rules" (.arr (old ++ newRules))
  | _ => card

/-- Lines 74-75 of `src/context.py`: a present `brand_voice` key overwrites
the card's `brand_voice`. -/
def applyBrandVoice (card content : Obj) : Obj :=
  match getKey content "brand_voice" with
  | some v => setKey card "brand_voice" v
  | none => card

/-- Lines 73-84 of `src/context.py`: the document loop.  For each document
in insertion order: a present `brand_voice` key overwrites the card's
`brand_voice`; a present `rules` key has each entry reformatted and
appended to the card's rule list. -/
def composeDocs (card : Obj) : List (String × Obj) → Option Obj
  | [] => some card
  | (_, content) :: rest =>
      let card1 := applyBrandVoice card content
      match getKey content "rules" with
      | none => composeDocs card1 rest
      | some (.arr rs) =>
          match ruleEntries rs with
          | none => none
          | some newRules => composeDocs (appendRules card1 newRules) rest
      | some _ => none

/-- Lines 64-86 of `src/context.py`, `compose_context_card`: the initial
card holds the non-null product attributes and an empty rule list, then
the documents are folded over it. -/
def compose_context_card (product_specs : Obj) (contexts : List (String × Obj)) : Option Obj :=
  composeDocs
    [("product_attributes", .obj (product_specs.filter (fun p => pdNotna p.2))),
     ("rules", .arr [])]
    contexts

/-- The `brand_voice` of the last document in order that has one (the
value the claimed last-writer-wins contract predicts). -/
def lastBrandVoice : List (String × Obj) → Option JVal
  | [] => none
  | (_, content) :: rest =>
      match lastBrandVoice rest with
      | some v => some v
      | none => getKey content "brand_voice"

/-- The rule sequence the spec describes: the concatenation, in document
order then in-document order, of every reformatted entry of each
document's `rules` list (documents without a `rules` key contribute
nothing); `none` when a document would crash the composing loop. -/
def rulesConcat : List (String × Obj) → Option (List JVal)
  | [] => some []
  | (_, content) :: rest =>
      match getKey content "rules" with
      | none => rulesConcat rest
      | some (.arr rs) =>
          match ruleEntries rs with
          | none => none
          | some es =>
              match rulesConcat rest with
              | none => none
              | some tail => some (es ++ tail)
      | some _ => none

/-- Keys of a dict-like association list are pairwise distinct (always true
of an `Obj` coming from an actual Python dict). -/
def keysUnique : Obj → Bool
  | [] => true
  | (k, _) :: rest => !hasKey rest k && keysUnique rest

/-!
## The `/analyze` handler (`src/main.py`)

The pydantic models `Grounding`, `Attribute`, `Structured`, `Diagnostics`
and `AnalyzeResponse` become Lean structures; `AnalyzeResponse(**d)` is
the checker `validateAnalyzeResponse` (field types enforced, unknown keys
ignored, missing required fields rejected — nothing is defaulted).
External collaborators live in `Env`: the loaded spec catalog, the
context-document store (`none` models the load raising
`FileNotFoundError`), the generative model as a black-box function of the
arguments `query_gemini` passes, and the elapsed wall-clock time.
-/

structure Grounding where
  citations : List String
  visual_refs : List String

structure Attribute where
  value : String
  source : String

structure Structured where
  attributes : List (String × Attribute)
  compliance : List (String × Obj)

structure Diagnostics where
  latency : ℚ
  model : String
  tokens : ℤ

structure AnalyzeResponseT where
  answer : String
  grounding : Grounding
  structured : Structured
  diagnostics : Diagnostics

structure AnalyzeRequestT where
  sku : String
  question : Option String
  context_ids : List String
  metadata : Option Obj

def asString : JVal → Option String
  | .str s => some s
  | _ => none

/-- `List[str]` elementwise: every entry must be a string. -/
def asStringAll : List JVal → Option (List String)
  | [] => some []
  | x :: xs =>
      match asString x, asStringAll xs with
      | some s, some l => some (s :: l)
      | _, _ => none

def asStringList : JVal → Option (List String)
  | .arr xs => asStringAll xs
  | _ => none

def parseGrounding : JVal → Option Grounding
  | .obj o =>
      match getKey o "citations", getKey o "visual_refs" with
      | some cv, some vv =>
          match asStringList cv, asStringList vv with
          | some cs, some vs => some ⟨cs, vs⟩
          | _, _ => none
      | _, _ => none
  | _ => none

def parseAttribute : JVal → Option Attribute
  | .obj o =>
      match getKey o "value", getKey o "source" with
      | some vv, some sv =>
          match asString vv, asString sv with
          | some v, some s => some ⟨v, s⟩
          | _, _ => none
      | _, _ => none
  | _ => none

def parseAttributes : List (String × JVal) → Option (List (String × Attribute))
  | [] => some []
  | (k, v) :: rest =>
      match parseAttribute v, parseAttributes rest with
      | some a, some l => some ((k, a) :: l)
      | _, _ => none

/-- `compliance: Dict[str, Dict]`: every value must itself be a mapping;
its contents are unconstrained. -/
def parseComplianceEntries : List (String × JVal) → Option (List (String × Obj))
  | [] => some []
  | (k, v) :: rest =>
      match v with
      | .obj vo =>
          match parseComplianceEntries rest with
          | some l => some ((k, vo) :: l)
          | none => none
      | _ => none

def parseStructured : JVal → Option Structured
  | .obj o =>
      match getKey o "attributes", getKey o "compliance" with
      | some av, some cv =>
          match av, cv with
          | .obj ao, .obj co =>
              match parseAttributes ao, parseComplianceEntries co with
              | some al, some cl => some ⟨al, cl⟩
              | _, _ => none
          | _, _ => none
      | _, _ => none
  | _ => none

/-- `latency: float` admits any JSON number. -/
def asNum : JVal → Option ℚ
  | .num q => some q
  | _ => none

/-- `tokens: int` admits an integral JSON number. -/
def asInt : JVal → Option ℤ
  | .num q => if q.den = 1 then some q.num else none
  | _ => none

def parseDiagnostics : JVal → Option Diagnostics
  | .obj o =>
      match getKey o "latency", getKey o "model", getKey o "tokens" with
      | some lv, some mv, some tv =>
          match asNum lv, asString mv, asInt tv with
          | some l, some m, some t => some ⟨l, m, t⟩
          | _, _, _ => none
      | _, _, _ => none
  | _ => none

/-- `AnalyzeResponse(**model_response)`: all four required top-level fields
with their required nested shapes, or a `ValidationError` (`none`). -/
def validateAnalyzeResponse (mr : Obj) : Option AnalyzeResponseT :=
  match getKey mr "answer", getKey mr "grounding", getKey mr "structured",
      getKey mr "diagnostics" with
  | some av, some gv, some sv, some dv =>
      match asString av, parseGrounding gv, parseStructured sv, parseDiagnostics dv with
      | some answer, some g, some st, some d => some ⟨answer, g, st, d⟩
      | _, _, _, _ => none
  | _, _, _, _ => none

/-- Lines 95-100 of `src/main.py`: ensure a `diagnostics` dict exists, set
`diagnostics["latency"]` to the rounded elapsed time, default
`diagnostics["tokens"]` to 0 when absent.  A present non-dict
`diagnostics` value makes the item assignment raise `TypeError`
(uncaught), modelled as `none`. -/
def ensureDiagnostics (mr : Obj) : Obj :=
  if hasKey mr "diagnostics" then mr else setKey mr "diagnostics" (.obj [])

def setTokensDefault (d : Obj) : Obj :=
  if hasKey d "tokens" then d else setKey d "tokens" (.num 0)

def injectDiagnostics (mr : Obj) (elapsed : ℚ) : Option Obj :=
  match getKey (ensureDiagnostics mr) "diagnostics" with
  | some (.obj d) =>
      some (setKey (ensureDiagnostics mr) "diagnostics"
        (.obj (setTokensDefault (setKey d "latency" (.num (round2 elapsed))))))
  | _ => none

/-- What the handler produces, at the handler's own level: a plain `return`
of a dict (which the framework serialises on the 200 path), a plain
`return` of the validated response model, a raised `HTTPException` with a
status code and detail text, or an uncaught exception. -/
inductive HandlerOutcome where
  | okDict (d : Obj)
  | okResponse (r : AnalyzeResponseT)
  | httpError (status : ℕ) (detail : String)
  | crashed

/-- Rendering of a value inside an f-string, as in the
`Model query failed` detail (`str` of the fetched values; non-string
payloads abstracted to a placeholder rendering). -/
def pyShowOpt : Option JVal → String
  | none => "None"
  | some (.str s) => s
  | some .null => "None"
  | some (.bool true) => "True"
  | some (.bool false) => "False"
  | some _ => "<value>"

/-- Lines 83-113 of `src/main.py`: what the handler does with the dict
returned by `query_gemini` — the `"error" in model_response` check, the
diagnostics injection, and pydantic validation with its
`HTTPException(500)` on `ValidationError`.  The `{e}` interpolation of the
pydantic error is abstracted out of the detail text. -/
def processModelResponse (mr : Obj) (elapsed : ℚ) : HandlerOutcome :=
  if hasKey mr "error" then
    .httpError 500 ("Model query failed: " ++ pyShowOpt (getKey mr "error") ++ " - " ++
      pyShowOpt (getKey mr "details"))
  else
    match injectDiagnostics mr elapsed with
    | none => .crashed
    | some m =>
        match validateAnalyzeResponse m with
        | some r => .okResponse r
        | none => .httpError 500 "Model returned an invalid data format."

/-- Lines 32-38 of `src/context.py`, `get_sku_specs`: catalog lookup, or a
`ValueError` whose message names the SKU. -/
def get_sku_specs (sku : String) (catalog : List (String × Obj)) : Except String Obj :=
  match catalog.find? (fun p => p.1 == sku) with
  | some p => .ok p.2
  | none => .error ("SKU '" ++ sku ++ "' not found in the specification catalog.")

/-- A dict update whose value is itself a dict (used for the
`{ctx_id: load_context_file(ctx_id) for ctx_id in ...}` comprehension). -/
def setKeyDoc (m : List (String × Obj)) (k : String) (v : Obj) : List (String × Obj) :=
  match m with
  | [] => [(k, v)]
  | (k', v') :: rest => if k' = k then (k, v) :: rest else (k', v') :: setKeyDoc rest k v

/-- Line 67 of `src/main.py`: the context dict comprehension, evaluated
left to right; a failing load (`FileNotFoundError` from
`load_context_file`, whose message's `Error: {e}` tail is abstracted)
aborts it.  Duplicate ids collapse as in a Python dict. -/
def loadContexts (store : String → Option Obj) :
    List String → List (String × Obj) → Except String (List (String × Obj))
  | [], acc => .ok acc
  | id :: rest, acc =>
      match store id with
      | none => .error ("Could not load context '" ++ id ++ "' from GCS.")
      | some doc => loadContexts store rest (setKeyDoc acc id doc)

/-- The fixed default question used when the request's `question` is falsy. -/
def defaultQuestion : String := "Describe the product based on the image and context."

/-- Line 80 of `src/main.py`: `request.question or default` — Python `or`
yields the default for `None` and for the empty string. -/
def effectiveQuestion : Option String → String
  | none => defaultQuestion
  | some s => if s.isEmpty then defaultQuestion else s

/-- The process environment of one request: the successfully loaded spec
catalog, the context-document store, the generative model as a black box
of the arguments `query_gemini` sends it (image reference, composed
context card, question), and the elapsed time measured around the model
call. -/
structure Env where
  catalog : List (String × Obj)
  contextStore : String → Option Obj
  modelCall : Option JVal → Obj → String → ModelRaw
  elapsed : ℚ

/-- Lines 48-113 of `src/main.py`, the `analyze` handler: SKU lookup and
image-reference check (caught errors are returned as plain dicts), the
context comprehension, card composition, the gateway call, and response
processing. -/
def analyze (env : Env) (req : AnalyzeRequestT) : HandlerOutcome :=
  match get_sku_specs req.sku env.catalog with
  | .error e => .okDict [("error", .str e)]
  | .ok product_specs =>
      if pyFalsyOpt (getKey product_specs "image_gcs_uri") then
        .okDict [("error", .str ("Image GCS URI not found for SKU: " ++ req.sku))]
      else
        match loadContexts env.contextStore req.context_ids [] with
        | .error e => .okDict [("error", .str e)]
        | .ok contexts =>
            match compose_context_card product_specs contexts with
            | none => .crashed
            | some card =>
                match query_gemini (env.modelCall (getKey product_specs "image_gcs_uri")
                    card (effectiveQuestion req.question)) with
                | .crashed => .crashed
                | .failure d => processModelResponse d env.elapsed
                | .success p => processModelResponse p env.elapsed

/-!
## Claims
-/

theorem string_data_fenceWrap (s : String) :
    (fenceWrap s).data = fenceOpen ++ s.data ++ fenceClose := by
  have h1 : ("```json\n" : String).data = fenceOpen := by decide
  have h2 : ("\n```" : String).data = fenceClose := by decide
  simp [fenceWrap, ← h1, ← h2]

/-- C4: for a raw model text that is a JSON object serialised on one line
(no newline characters), the gateway's extraction step produces the same
parsed mapping whether the text is wrapped in a fenced code block tagged
`json` or given bare: a found fence has its interior parsed, otherwise the
whole raw text is parsed. -/
theorem C4_fenced_and_bare_extraction_agree (s : String) (o : List (String × JVal))
    (hnl : '\n' ∉ s.data) (hparse : loadsL s.data = some (JVal.obj o)) :
    extractJson (fenceWrap s) = some (JVal.obj o) ∧
    extractJson s = some (JVal.obj o) := by
  constructor
  · unfold extractJson
    rw [string_data_fenceWrap, fenceGroup_fenceWrap_list]
    exact hparse
  · unfold extractJson
    rw [fenceGroup_eq_none_of_no_newline s.data hnl]
    exact hparse

/-- Witness for C4 at the spec's own example shape. -/
theorem C4_witness :
    extractJson (fenceWrap "\x7b\"answer\":\"ok\"\x7d") =
      some (.obj [("answer", .str "ok")]) ∧
    extractJson "\x7b\"answer\":\"ok\"\x7d" = some (.obj [("answer", .str "ok")]) :=
  C4_fenced_and_bare_extraction_agree "\x7b\"answer\":\"ok\"\x7d"
    [("answer", .str "ok")] (by decide) rfl

/-- C5: the gateway's failure checks run in source order: no candidates
fails with the empty-response dict; otherwise a first candidate not
finishing with `STOP` fails with the premature-stop dict carrying the
finish reason and safety ratings (never a parsed success); otherwise blank
text fails with the empty-text dict; otherwise a text whose JSON
extraction fails fails with the malformed dict carrying the raw text. -/
theorem C5_gateway_failure_checks_in_order (resp : ModelRaw) :
    (resp.candidates = [] → query_gemini resp = .failure emptyResponseDict) ∧
    (∀ c cs, resp.candidates = c :: cs → c.finishReason ≠ .STOP →
      query_gemini resp = .failure (prematureStopDict c) ∧
        ∀ p, query_gemini resp ≠ .success p) ∧
    (∀ c cs, resp.candidates = c :: cs → c.finishReason = .STOP →
      textBlank resp.text = true → query_gemini resp = .failure emptyTextDict) ∧
    (∀ c cs, resp.candidates = c :: cs → c.finishReason = .STOP →
      textBlank resp.text = false → extractJson resp.text = none →
      query_gemini resp = .failure (malformedDict resp.text)) := by
  refine ⟨?_, ?_, ?_, ?_⟩
  · intro h
    unfold query_gemini
    rw [h]
  · intro c cs h hfr
    have hq : query_gemini resp = .failure (prematureStopDict c) := by
      unfold query_gemini
      rw [h]
      simp [hfr]
    exact ⟨hq, fun p hp => by rw [hq] at hp; exact QueryResult.noConfusion hp⟩
  · intro c cs h hfr hblank
    unfold query_gemini
    rw [h]
    simp [hfr, hblank]
  · intro c cs h hfr hblank hext
    unfold query_gemini
    rw [h]
    simp [hfr, hblank, hext]

/-- Witness for C5: all four failure stages at concrete responses. -/
theorem C5_witness :
    query_gemini ⟨[], ""⟩ = .failure emptyResponseDict ∧
    query_gemini ⟨[⟨.SAFETY, "sr"⟩], "x"⟩ =
      .failure (prematureStopDict ⟨.SAFETY, "sr"⟩) ∧
    query_gemini ⟨[⟨.STOP, ""⟩], "  "⟩ = .failure emptyTextDict ∧
    query_gemini ⟨[⟨.STOP, ""⟩], "not json"⟩ = .failure (malformedDict "not json") :=
  ⟨(C5_gateway_failure_checks_in_order ⟨[], ""⟩).1 rfl,
   ((C5_gateway_failure_checks_in_order ⟨[⟨.SAFETY, "sr"⟩], "x"⟩).2.1 _ _ rfl
      (by decide)).1,
   (C5_gateway_failure_checks_in_order ⟨[⟨.STOP, ""⟩], "  "⟩).2.2.1 _ _ rfl rfl rfl,
   (C5_gateway_failure_checks_in_order ⟨[⟨.STOP, ""⟩], "not json"⟩).2.2.2 _ _ rfl rfl
      rfl rfl⟩

theorem getKey_appendRules_ne (card : Obj) (newRules : List JVal) (k : String)
    (hk : k ≠ "rules") : getKey (appendRules card newRules) k = getKey card k := by
  unfold appendRules
  match h : getKey card "rules" with
  | some (.arr old) => rw [getKey_setKey_ne _ _ _ _ (Ne.symm hk)]
  | some .null | some .nan | some (.bool _) | some (.num _) | some (.str _)
  | some (.obj _) | none => rfl

theorem getKey_applyBrandVoice_bv (card content : Obj) :
    getKey (applyBrandVoice card content) "brand_voice" =
      (match getKey content "brand_voice" with
       | some v => some v
       | none => getKey card "brand_voice") := by
  unfold applyBrandVoice
  match getKey content "brand_voice" with
  | some v => exact getKey_setKey_self _ _ _
  | none => rfl

theorem getKey_applyBrandVoice_ne (card content : Obj) (k : String)
    (hk : k ≠ "brand_voice") :
    getKey (applyBrandVoice card content) k = getKey card k := by
  unfold applyBrandVoice
  match getKey content "brand_voice" with
  | some v => exact getKey_setKey_ne _ _ _ _ (Ne.symm hk)
  | none => rfl

theorem composeDocs_brandVoice (docs : List (String × Obj)) :
    ∀ card out, composeDocs card docs = some out →
      getKey out "brand_voice" =
        (match lastBrandVoice docs with
         | some v => some v
         | none => getKey card "brand_voice") := by
  induction docs with
  | nil =>
      intro card out h
      simp only [composeDocs, Option.some.injEq] at h
      subst h
      rfl
  | cons doc rest ih =>
      intro card out h
      obtain ⟨id, content⟩ := doc
      simp only [composeDocs] at h
      have key : ∀ card2, composeDocs card2 rest = some out →
          getKey card2 "brand_voice" =
            getKey (applyBrandVoice card content) "brand_voice" →
          getKey out "brand_voice" =
            (match lastBrandVoice ((id, content) :: rest) with
             | some v => some v
             | none => getKey card "brand_voice") := by
        intro card2 h2 hsame
        rw [ih card2 out h2, hsame, getKey_applyBrandVoice_bv]
        simp only [lastBrandVoice]
        match lastBrandVoice rest, getKey content "brand_voice" with
        | some v, some w => rfl
        | some v, none => rfl
        | none, some w => rfl
        | none, none => rfl
      split at h
      · exact key _ h rfl
      · split at h
        · cases h
        · exact key _ h (getKey_appendRules_ne _ _ _ (by decide))
      · cases h

/-- C6: the composed card's `brand_voice` is the `brand_voice` of the last
supplied context document that defines one (last writer wins, in
caller-supplied order), and the card has no `brand_voice` key when no
document defines one. -/
theorem C6_brand_voice_last_writer_wins (ps : Obj) (docs : List (String × Obj))
    (out : Obj) (h : compose_context_card ps docs = some out) :
    getKey out "brand_voice" = lastBrandVoice docs ∧
    (lastBrandVoice docs = none → hasKey out "brand_voice" = false) := by
  have hinit := composeDocs_brandVoice docs _ out h
  have hnone : getKey
      [("product_attributes", JVal.obj (ps.filter (fun p => pdNotna p.2))),
       ("rules", JVal.arr [])] "brand_voice" = (none : Option JVal) := by
    simp [getKey]
  rw [hnone] at hinit
  have hbv : getKey out "brand_voice" = lastBrandVoice docs := by
    rw [hinit]
    match lastBrandVoice docs with
    | some v => rfl
    | none => rfl
  exact ⟨hbv, fun hl => (getKey_eq_none_iff out "brand_voice").mp (hbv.trans hl)⟩

/-- Witness for C6 at the spec's order-preservation example: document A
without a brand voice, then B with one; then B first and A defining its
own brand voice. -/
theorem C6_witness :
    (∃ out, compose_context_card []
        [("A", [("rules", .arr [])]), ("B", [("brand_voice", .str "X")])] = some out ∧
      getKey out "brand_voice" = some (.str "X")) ∧
    (∃ out, compose_context_card []
        [("B", [("brand_voice", .str "X")]), ("A", [("brand_voice", .str "Y")])] =
          some out ∧
      getKey out "brand_voice" = some (.str "Y")) := by
  constructor
  · refine ⟨_, rfl, ?_⟩
    have := (C6_brand_voice_last_writer_wins []
      [("A", [("rules", .arr [])]), ("B", [("brand_voice", .str "X")])] _ rfl).1
    rw [this]
    rfl
  · refine ⟨_, rfl, ?_⟩
    have := (C6_brand_voice_last_writer_wins []
      [("B", [("brand_voice", .str "X")]), ("A", [("brand_voice", .str "Y")])] _ rfl).1
    rw [this]
    rfl

theorem composeDocs_rules (docs : List (String × Obj)) :
    ∀ card acc out, composeDocs card docs = some out →
      getKey card "rules" = some (.arr acc) →
      ∃ l, rulesConcat docs = some l ∧ getKey out "rules" = some (.arr (acc ++ l)) := by
  induction docs with
  | nil =>
      intro card acc out h hacc
      simp only [composeDocs, Option.some.injEq] at h
      subst h
      exact ⟨[], rfl, by simpa using hacc⟩
  | cons doc rest ih =>
      intro card acc out h hacc
      obtain ⟨id, content⟩ := doc
      simp only [composeDocs] at h
      have hcard1 : getKey (applyBrandVoice card content) "rules" = some (.arr acc) := by
        rw [getKey_applyBrandVoice_ne _ _ _ (by decide)]
        exact hacc
      split at h
      case _ hr =>
          obtain ⟨l, hl, hout⟩ := ih _ acc out h hcard1
          refine ⟨l, ?_, hout⟩
          simp only [rulesConcat, hr]
          exact hl
      case _ rs hr =>
          split at h
          · cases h
          case _ es hre =>
              have happ : getKey (appendRules (applyBrandVoice card content) es) "rules" =
                  some (.arr (acc ++ es)) := by
                unfold appendRules
                rw [hcard1]
                exact getKey_setKey_self _ _ _
              obtain ⟨l, hl, hout⟩ := ih _ (acc ++ es) out h happ
              refine ⟨es ++ l, ?_, ?_⟩
              · simp only [rulesConcat, hr, hre, hl]
              · rw [hout, List.append_assoc]
      case _ hr1 hr2 => cases h

/-- C7: the composed card's `rules` sequence is exactly the concatenation,
in document order then in-document order, of the reformatted entries of
every document's `rules` list — `id` and `text` via `.get` (absent or null
both pass through as null), `mandatory` defaulted to false when absent,
and no deduplication of rule ids across documents. -/
theorem C7_rules_concatenation (ps : Obj) (docs : List (String × Obj)) (out : Obj)
    (h : compose_context_card ps docs = some out) :
    ∃ l, rulesConcat docs = some l ∧ getKey out "rules" = some (.arr l) := by
  have hinit : getKey
      [("product_attributes", JVal.obj (ps.filter (fun p => pdNotna p.2))),
       ("rules", JVal.arr [])] "rules" = some (.arr []) := by
    simp [getKey]
  obtain ⟨l, hl, hout⟩ := composeDocs_rules docs _ [] out h hinit
  exact ⟨l, hl, by simpa using hout⟩

/-- Witness for C7 at the spec's no-deduplication example: two documents
each defining rule id R-1 with different text yield two entries, in
document order, both with id R-1 and `mandatory` defaulted to false. -/
theorem C7_witness :
    ∃ out, compose_context_card []
        [("d1", [("rules", .arr [.obj [("id", .str "R-1"), ("text", .str "first")]])]),
         ("d2", [("rules", .arr [.obj [("id", .str "R-1"), ("text", .str "second")]])])] =
        some out ∧
      getKey out "rules" = some (.arr
        [.obj [("id", .str "R-1"), ("text", .str "first"), ("mandatory", .bool false)],
         .obj [("id", .str "R-1"), ("text", .str "second"), ("mandatory", .bool false)]]) := by
  obtain ⟨l, hl, hout⟩ := C7_rules_concatenation []
    [("d1", [("rules", .arr [.obj [("id", .str "R-1"), ("text", .str "first")]])]),
     ("d2", [("rules", .arr [.obj [("id", .str "R-1"), ("text", .str "second")]])])] _ rfl
  refine ⟨_, rfl, ?_⟩
  rw [hout]
  have : l = [.obj [("id", .str "R-1"), ("text", .str "first"), ("mandatory", .bool false)],
      .obj [("id", .str "R-1"), ("text", .str "second"), ("mandatory", .bool false)]] := by
    have h0 : rulesConcat
        [("d1", [("rules", .arr [.obj [("id", .str "R-1"), ("text", .str "first")]])]),
         ("d2", [("rules", .arr [.obj [("id", .str "R-1"), ("text", .str "second")]])])] =
        some [.obj [("id", .str "R-1"), ("text", .str "first"), ("mandatory", .bool false)],
          .obj [("id", .str "R-1"), ("text", .str "second"), ("mandatory", .bool false)]] := rfl
    rw [h0, Option.some.injEq] at hl
    exact hl.symm
  rw [this]

theorem hasKey_filter_false (o : Obj) (f : String × JVal → Bool) (k : String)
    (h : hasKey o k = false) : hasKey (o.filter f) k = false := by
  induction o with
  | nil => exact h
  | cons p rest ih =>
      obtain ⟨k', v'⟩ := p
      simp only [hasKey, Bool.or_eq_false_iff] at h
      by_cases hf : f (k', v')
      · simp only [List.filter_cons_of_pos hf, hasKey, h.1, Bool.false_or]
        exact ih h.2
      · rw [List.filter_cons_of_neg (by simpa using hf)]
        exact ih h.2

theorem getKey_filter_notna (ps : Obj) (k : String) (hu : keysUnique ps = true) :
    getKey (ps.filter (fun p => pdNotna p.2)) k =
      (match getKey ps k with
       | some v => if pdNotna v then some v else none
       | none => none) := by
  induction ps with
  | nil => simp [getKey]
  | cons p rest ih =>
      obtain ⟨k0, v0⟩ := p
      simp only [keysUnique, Bool.and_eq_true, Bool.not_eq_eq_eq_not, Bool.not_true] at hu
      by_cases hk : k0 = k
      · subst hk
        by_cases hv : pdNotna v0
        · rw [List.filter_cons_of_pos (by simpa using hv)]
          simp [getKey, hv]
        · rw [List.filter_cons_of_neg (by simpa using hv)]
          have hrest : getKey (rest.filter (fun p => pdNotna p.2)) k0 = none := by
            rw [getKey_eq_none_iff]
            exact hasKey_filter_false rest _ k0 hu.1
          rw [hrest]
          simp [getKey, hv]
      · have step : getKey (rest.filter (fun p => pdNotna p.2)) k =
            (match getKey rest k with
             | some v => if pdNotna v then some v else none
             | none => none) := ih hu.2
        by_cases hv : pdNotna v0
        · rw [List.filter_cons_of_pos (by simpa using hv)]
          simpa [getKey, hk] using step
        · rw [List.filter_cons_of_neg (by simpa using hv)]
          simpa [getKey, hk] using step

theorem composeDocs_productAttributes (docs : List (String × Obj)) :
    ∀ card out, composeDocs card docs = some out →
      getKey out "product_attributes" = getKey card "product_attributes" := by
  induction docs with
  | nil =>
      intro card out h
      simp only [composeDocs, Option.some.injEq] at h
      subst h
      rfl
  | cons doc rest ih =>
      intro card out h
      obtain ⟨id, content⟩ := doc
      simp only [composeDocs] at h
      split at h
      · rw [ih _ out h, getKey_applyBrandVoice_ne _ _ _ (by decide)]
      · split at h
        · cases h
        · rw [ih _ out h, getKey_appendRules_ne _ _ _ (by decide),
            getKey_applyBrandVoice_ne _ _ _ (by decide)]
      · cases h

/-- C8: the composed card's `product_attributes` holds exactly the
attributes of the product spec whose values are not null (`None`/`NaN`),
with keys and values unchanged; every null-valued attribute is omitted
entirely. -/
theorem C8_product_attributes_null_filtering (ps : Obj) (docs : List (String × Obj))
    (out : Obj) (hu : keysUnique ps = true) (h : compose_context_card ps docs = some out) :
    ∃ pa, getKey out "product_attributes" = some (.obj pa) ∧
      ∀ k, getKey pa k =
        (match getKey ps k with
         | some v => if pdNotna v then some v else none
         | none => none) := by
  refine ⟨ps.filter (fun p => pdNotna p.2), ?_, fun k => getKey_filter_notna ps k hu⟩
  have := composeDocs_productAttributes docs _ out h
  rw [this]
  simp [getKey]

/-- Witness for C8 at the spec's null-filtering example: an explicit null
`material` is omitted entirely, non-null attributes pass through. -/
theorem C8_witness :
    ∃ pa, getKey
        ((compose_context_card [("image_gcs_uri", .str "gs://x"), ("material", .null)]
          []).getD []) "product_attributes" = some (.obj pa) ∧
      getKey pa "image_gcs_uri" = some (.str "gs://x") ∧
      getKey pa "material" = none ∧ hasKey pa "material" = false := by
  obtain ⟨pa, hpa, hall⟩ := C8_product_attributes_null_filtering
    [("image_gcs_uri", .str "gs://x"), ("material", .null)] [] _ rfl rfl
  refine ⟨pa, hpa, ?_, ?_, ?_⟩
  · have := hall "image_gcs_uri"
    simpa [getKey, pdNotna] using this
  · have := hall "material"
    simpa [getKey, pdNotna] using this
  · have hm : getKey pa "material" = none := by
      have := hall "material"
      simpa [getKey, pdNotna] using this
    exact (getKey_eq_none_iff pa "material").mp hm


/-- The extracted model output has the required `structured.compliance`
field: `structured` is present, is a mapping, and holds a `compliance`
key. -/
def hasCompliance (mr : Obj) : Bool :=
  match getKey mr "structured" with
  | some (.obj s) => hasKey s "compliance"
  | _ => false

theorem getKey_ensureDiagnostics_ne (mr : Obj) (k : String) (hk : k ≠ "diagnostics") :
    getKey (ensureDiagnostics mr) k = getKey mr k := by
  unfold ensureDiagnostics
  by_cases hc : hasKey mr "diagnostics"
  · simp [hc]
  · simp only [hc, Bool.false_eq_true, if_false]
    exact getKey_setKey_ne _ _ _ _ (Ne.symm hk)

theorem injectDiagnostics_preserves (mr : Obj) (q : ℚ) (k : String)
    (hk : k ≠ "diagnostics") :
    ∀ m, injectDiagnostics mr q = some m → getKey m k = getKey mr k := by
  intro m h
  unfold injectDiagnostics at h
  match hd : getKey (ensureDiagnostics mr) "diagnostics" with
  | some (.obj d) =>
      rw [hd] at h
      simp only [Option.some.injEq] at h
      subst h
      rw [getKey_setKey_ne _ _ _ _ (Ne.symm hk)]
      exact getKey_ensureDiagnostics_ne mr k hk
  | some .null | some .nan | some (.bool _) | some (.num _) | some (.str _)
  | some (.arr _) | none =>
      rw [hd] at h
      cases h

theorem parseStructured_none_of_no_compliance (s : List (String × JVal))
    (h : hasKey s "compliance" = false) : parseStructured (.obj s) = none := by
  have hc : getKey s "compliance" = none := (getKey_eq_none_iff s "compliance").mpr h
  cases hA2 : getKey s "attributes" <;> simp [parseStructured, hA2, hc]

theorem validate_none_of_no_compliance (m : Obj) (h : hasCompliance m = false) :
    validateAnalyzeResponse m = none := by
  unfold hasCompliance at h
  match hS : getKey m "structured" with
  | none =>
      cases hA : getKey m "answer" <;> cases hG : getKey m "grounding" <;>
        cases hD : getKey m "diagnostics" <;>
        simp [validateAnalyzeResponse, hA, hG, hS, hD]
  | some sv =>
      rw [hS] at h
      have hps : parseStructured sv = none := by
        match sv, h with
        | .obj s, h => exact parseStructured_none_of_no_compliance s h
        | .null, _ | .nan, _ | .bool _, _ | .num _, _ | .str _, _ | .arr _, _ => rfl
      cases hA : getKey m "answer" <;> cases hG : getKey m "grounding" <;>
        cases hD : getKey m "diagnostics" <;>
        simp [validateAnalyzeResponse, hA, hG, hS, hD, hps]

/-!
### The required-field discipline of the AnalyzeResponse schema

The predicates below restate, independently of the checker, the schema the
spec declares (and `src/main.py:25-46` encodes): required top-level fields
`answer` (string), `grounding` (mapping with `citations` and `visual_refs`
lists of strings), `structured` (mapping whose `attributes` entries each
carry string `value` and `source`, and whose `compliance` entries are
mappings), `diagnostics` (number `latency`, string `model`, integer
`tokens`).  These are the declared pydantic field types; lax scalar
coercions of particular pydantic releases (which the repository does not
pin) are not modelled.
-/

def isStringVal : JVal → Bool
  | .str _ => true
  | _ => false

def isNumVal : JVal → Bool
  | .num _ => true
  | _ => false

def isIntVal : JVal → Bool
  | .num q => q.den = 1
  | _ => false

def isMappingVal : JVal → Bool
  | .obj _ => true
  | _ => false

def isStringListVal : JVal → Bool
  | .arr xs => xs.all isStringVal
  | _ => false

/-- The key is present and its value satisfies the type predicate. -/
def fieldOk (o : Obj) (k : String) (p : JVal → Bool) : Bool :=
  match getKey o k with
  | some v => p v
  | none => false

def attributeOk : JVal → Bool
  | .obj o => fieldOk o "value" isStringVal && fieldOk o "source" isStringVal
  | _ => false

def groundingOk : JVal → Bool
  | .obj o => fieldOk o "citations" isStringListVal && fieldOk o "visual_refs" isStringListVal
  | _ => false

def attributesValOk : JVal → Bool
  | .obj ao => ao.all (fun p => attributeOk p.2)
  | _ => false

def complianceValOk : JVal → Bool
  | .obj co => co.all (fun p => isMappingVal p.2)
  | _ => false

def structuredOk : JVal → Bool
  | .obj o => fieldOk o "attributes" attributesValOk && fieldOk o "compliance" complianceValOk
  | _ => false

def diagnosticsOk : JVal → Bool
  | .obj o =>
      fieldOk o "latency" isNumVal && fieldOk o "model" isStringVal &&
        fieldOk o "tokens" isIntVal
  | _ => false

/-- Every required field of the AnalyzeResponse schema is present on the
mapping with its required type. -/
def requiredFieldsOk (m : Obj) : Bool :=
  fieldOk m "answer" isStringVal && fieldOk m "grounding" groundingOk &&
    fieldOk m "structured" structuredOk && fieldOk m "diagnostics" diagnosticsOk

theorem asString_isSome (v : JVal) : (asString v).isSome = isStringVal v := by
  cases v <;> rfl

theorem asNum_isSome (v : JVal) : (asNum v).isSome = isNumVal v := by
  cases v <;> rfl

theorem asInt_isSome (v : JVal) : (asInt v).isSome = isIntVal v := by
  cases v with
  | num q => by_cases h : q.den = 1 <;> simp [asInt, isIntVal, h]
  | _ => rfl

theorem asStringAll_isSome (xs : List JVal) :
    (asStringAll xs).isSome = xs.all isStringVal := by
  induction xs with
  | nil => rfl
  | cons x xs ih =>
      simp only [asStringAll, List.all_cons]
      cases hx : asString x with
      | none =>
          have hv : isStringVal x = false := by rw [← asString_isSome, hx]; rfl
          simp [hv]
      | some s =>
          have hv : isStringVal x = true := by rw [← asString_isSome, hx]; rfl
          cases hrest : asStringAll xs with
          | none =>
              rw [hrest] at ih
              simp [hv, ← ih]
          | some l =>
              rw [hrest] at ih
              simp [hv, ← ih]

theorem asStringList_isSome (v : JVal) :
    (asStringList v).isSome = isStringListVal v := by
  cases v with
  | arr xs => exact asStringAll_isSome xs
  | _ => rfl

theorem parseAttribute_isSome (v : JVal) :
    (parseAttribute v).isSome = attributeOk v := by
  cases v with
  | obj o =>
      simp only [parseAttribute, attributeOk, fieldOk]
      cases hv : getKey o "value" <;> cases hs : getKey o "source" <;> simp
      rename_i vv sv
      rw [← asString_isSome vv, ← asString_isSome sv]
      cases asString vv <;> cases asString sv <;> rfl
  | _ => rfl

theorem parseAttributes_isSome (l : List (String × JVal)) :
    (parseAttributes l).isSome = l.all (fun p => attributeOk p.2) := by
  induction l with
  | nil => rfl
  | cons p rest ih =>
      obtain ⟨k, v⟩ := p
      simp only [parseAttributes, List.all_cons]
      rw [← parseAttribute_isSome v, ← ih]
      cases parseAttribute v <;> cases parseAttributes rest <;> rfl

theorem parseComplianceEntries_isSome (l : List (String × JVal)) :
    (parseComplianceEntries l).isSome = l.all (fun p => isMappingVal p.2) := by
  induction l with
  | nil => rfl
  | cons p rest ih =>
      obtain ⟨k, v⟩ := p
      simp only [parseComplianceEntries, List.all_cons]
      rw [← ih]
      cases v <;> cases hrest : parseComplianceEntries rest <;> simp [hrest, isMappingVal]

theorem parseGrounding_isSome (v : JVal) :
    (parseGrounding v).isSome = groundingOk v := by
  cases v with
  | obj o =>
      simp only [parseGrounding, groundingOk, fieldOk]
      cases hc : getKey o "citations" <;> cases hv : getKey o "visual_refs" <;> simp
      rename_i cv vv
      rw [← asStringList_isSome cv, ← asStringList_isSome vv]
      cases asStringList cv <;> cases asStringList vv <;> rfl
  | _ => rfl

theorem parseStructured_isSome (v : JVal) :
    (parseStructured v).isSome = structuredOk v := by
  cases v with
  | obj o =>
      simp only [parseStructured, structuredOk, fieldOk]
      cases ha : getKey o "attributes" <;> cases hc : getKey o "compliance" <;> simp
      rename_i av cv
      cases av <;> cases cv <;>
        simp [attributesValOk, complianceValOk, ← parseAttributes_isSome,
          ← parseComplianceEntries_isSome]
      rename_i ao co
      cases parseAttributes ao <;> cases parseComplianceEntries co <;> rfl
  | _ => rfl

theorem parseDiagnostics_isSome (v : JVal) :
    (parseDiagnostics v).isSome = diagnosticsOk v := by
  cases v with
  | obj o =>
      simp only [parseDiagnostics, diagnosticsOk, fieldOk]
      cases hl : getKey o "latency" <;> cases hm : getKey o "model" <;>
        cases ht : getKey o "tokens" <;> simp
      rename_i lv mv tv
      rw [← asNum_isSome lv, ← asString_isSome mv, ← asInt_isSome tv]
      cases asNum lv <;> cases asString mv <;> cases asInt tv <;> rfl
  | _ => rfl

theorem validate_isSome (m : Obj) :
    (validateAnalyzeResponse m).isSome = requiredFieldsOk m := by
  simp only [validateAnalyzeResponse, requiredFieldsOk, fieldOk]
  cases hA : getKey m "answer" <;> cases hG : getKey m "grounding" <;>
    cases hS : getKey m "structured" <;> cases hD : getKey m "diagnostics" <;> simp
  rename_i av gv sv dv
  rw [← asString_isSome av, ← parseGrounding_isSome gv, ← parseStructured_isSome sv,
    ← parseDiagnostics_isSome dv]
  cases asString av <;> cases parseGrounding gv <;> cases parseStructured sv <;>
    cases parseDiagnostics dv <;> rfl

/-- C2: a model output in which `structured.compliance` is missing — or in
which, after the diagnostics injection, any required field of the
AnalyzeResponse schema is missing or has the wrong type — fails validation
as a schema violation: no `AnalyzeResponse` is ever returned and the 500
invalid-format `HTTPException` is raised; nothing is silently defaulted
and no partially-validated response exists, since a validated response
arises only when every required field is present with its required type. -/
theorem C2_schema_violation_on_missing_or_wrong_typed (mr : Obj) (elapsed : ℚ) :
    (hasCompliance mr = false → ∀ r, processModelResponse mr elapsed ≠ .okResponse r) ∧
    (∀ m, injectDiagnostics mr elapsed = some m → requiredFieldsOk m = false →
      (∀ r, processModelResponse mr elapsed ≠ .okResponse r) ∧
      (hasKey mr "error" = false →
        processModelResponse mr elapsed =
          .httpError 500 "Model returned an invalid data format.")) ∧
    (∀ r, processModelResponse mr elapsed = .okResponse r →
      ∃ m, injectDiagnostics mr elapsed = some m ∧ requiredFieldsOk m = true) := by
  refine ⟨?_, ?_, ?_⟩
  · intro h r hr
    have hkey : ∀ m, injectDiagnostics mr elapsed = some m →
        validateAnalyzeResponse m = none := by
      intro m hm
      apply validate_none_of_no_compliance
      unfold hasCompliance at h ⊢
      rw [injectDiagnostics_preserves mr elapsed "structured" (by decide) m hm]
      exact h
    unfold processModelResponse at hr
    split at hr
    · cases hr
    · split at hr
      case _ => cases hr
      case _ m hm =>
          rw [hkey m hm] at hr
          cases hr
  · intro m hm hreq
    have hval : validateAnalyzeResponse m = none := by
      cases hv : validateAnalyzeResponse m with
      | none => rfl
      | some r' =>
          have hs := validate_isSome m
          rw [hv, hreq] at hs
          simp at hs
    constructor
    · intro r hr
      unfold processModelResponse at hr
      split at hr
      · cases hr
      · split at hr
        case _ => cases hr
        case _ m' hm' =>
            have hmm : m' = m := Option.some.inj (hm'.symm.trans hm)
            subst hmm
            rw [hval] at hr
            cases hr
    · intro herr
      unfold processModelResponse
      simp only [herr, Bool.false_eq_true, if_false, hm, hval]
  · intro r hr
    unfold processModelResponse at hr
    split at hr
    · cases hr
    · split at hr
      case _ => cases hr
      case _ m hm =>
          refine ⟨m, hm, ?_⟩
          rw [← validate_isSome m]
          split at hr
          case _ r' hv => rw [hv]; rfl
          case _ => cases hr

/-- A model output whose only schema flaw is a wrong-typed `answer` (a
number where a string is required). -/
def mrWrongTyped : Obj :=
  [("answer", .num 7),
   ("grounding", .obj [("citations", .arr []), ("visual_refs", .arr [])]),
   ("structured", .obj [("attributes", .obj []), ("compliance", .obj [])]),
   ("diagnostics", .obj [("model", .str "gemini-2.5-flash")])]

/-- A fully schema-conforming model output. -/
def mrValid : Obj :=
  [("answer", .str "ok"),
   ("grounding", .obj [("citations", .arr []), ("visual_refs", .arr [])]),
   ("structured", .obj [("attributes", .obj []), ("compliance", .obj [])]),
   ("diagnostics", .obj [("model", .str "gemini-2.5-flash")])]

/-- Witness for C2: an output without `structured` is never validated; an
output whose only flaw is a wrong-typed `answer` draws the 500
invalid-format error; a conforming output passes with every required
field present. -/
theorem C2_witness :
    (processModelResponse [("answer", .str "ok")] 0 ≠
      .okResponse ⟨"ok", ⟨[], []⟩, ⟨[], []⟩, ⟨0, modelName, 0⟩⟩) ∧
    processModelResponse mrWrongTyped 0 =
      .httpError 500 "Model returned an invalid data format." ∧
    ∃ m, injectDiagnostics mrValid 0 = some m ∧ requiredFieldsOk m = true :=
  ⟨(C2_schema_violation_on_missing_or_wrong_typed [("answer", .str "ok")] 0).1 rfl _,
   ((C2_schema_violation_on_missing_or_wrong_typed mrWrongTyped 0).2.1 _ rfl rfl).2 rfl,
   (C2_schema_violation_on_missing_or_wrong_typed mrValid 0).2.2 _ rfl⟩

/-- The model output's `diagnostics` value, when present, is a mapping —
true of every output the gateway can produce, and the condition under
which the handler's nested item assignment does not raise. -/
def diagShapeOk (mr : Obj) : Bool :=
  match getKey mr "diagnostics" with
  | some (.obj _) => true
  | some _ => false
  | none => true

/-- `tokens` is absent from the output's `diagnostics` mapping (or the
mapping itself is absent and about to be created empty). -/
def tokensAbsent (mr : Obj) : Bool :=
  match getKey mr "diagnostics" with
  | some (.obj d) => !hasKey d "tokens"
  | _ => true

/-- C3: for every parsed model output (with an absent or mapping-valued
`diagnostics`) and every elapsed time, the injection step yields a
`diagnostics` mapping whose `latency` is the elapsed time rounded to two
decimal places, creating the mapping when absent, and whose `tokens` is 0
whenever `tokens` was absent from that mapping. -/
theorem C3_latency_and_tokens_injection (mr : Obj) (q : ℚ) (h : diagShapeOk mr = true) :
    ∃ m d, injectDiagnostics mr q = some m ∧
      getKey m "diagnostics" = some (.obj d) ∧
      getKey d "latency" = some (.num (round2 q)) ∧
      (tokensAbsent mr = true → getKey d "tokens" = some (.num 0)) := by
  unfold diagShapeOk at h
  match hgd : getKey mr "diagnostics" with
  | none =>
      have hk : hasKey mr "diagnostics" = false := (getKey_eq_none_iff _ _).mp hgd
      have hens : ensureDiagnostics mr = setKey mr "diagnostics" (.obj []) := by
        unfold ensureDiagnostics
        simp [hk]
      have hgd2 : getKey (ensureDiagnostics mr) "diagnostics" = some (.obj []) := by
        rw [hens]
        exact getKey_setKey_self _ _ _
      refine ⟨setKey (ensureDiagnostics mr) "diagnostics"
          (.obj [("latency", .num (round2 q)), ("tokens", .num 0)]),
        [("latency", .num (round2 q)), ("tokens", .num 0)], ?_, ?_, ?_, ?_⟩
      · simp only [injectDiagnostics, hgd2]
        simp [setKey, setTokensDefault, hasKey]
      · exact getKey_setKey_self _ _ _
      · simp [getKey]
      · intro _
        simp [getKey]
  | some (.obj d) =>
      have hk : hasKey mr "diagnostics" = true := by
        by_contra hc
        rw [(getKey_eq_none_iff _ _).mpr (Bool.eq_false_iff.mpr hc)] at hgd
        cases hgd
      have hens : ensureDiagnostics mr = mr := by
        unfold ensureDiagnostics
        simp [hk]
      have hgd2 : getKey (ensureDiagnostics mr) "diagnostics" = some (.obj d) := by
        rw [hens]; exact hgd
      have htok1 : hasKey (setKey d "latency" (.num (round2 q))) "tokens" =
          hasKey d "tokens" := hasKey_setKey_ne _ _ _ _ (by decide)
      match ht : hasKey d "tokens" with
      | true =>
          refine ⟨setKey (ensureDiagnostics mr) "diagnostics"
              (.obj (setKey d "latency" (.num (round2 q)))),
            setKey d "latency" (.num (round2 q)), ?_, ?_, ?_, ?_⟩
          · simp only [injectDiagnostics, hgd2]
            unfold setTokensDefault
            rw [htok1, ht]
            simp
          · exact getKey_setKey_self _ _ _
          · exact getKey_setKey_self _ _ _
          · intro hta
            unfold tokensAbsent at hta
            simp only [hgd, ht, Bool.not_true] at hta
            cases hta
      | false =>
          refine ⟨setKey (ensureDiagnostics mr) "diagnostics"
              (.obj (setKey (setKey d "latency" (.num (round2 q))) "tokens" (.num 0))),
            setKey (setKey d "latency" (.num (round2 q))) "tokens" (.num 0),
            ?_, ?_, ?_, ?_⟩
          · simp only [injectDiagnostics, hgd2]
            unfold setTokensDefault
            rw [htok1, ht]
            simp
          · exact getKey_setKey_self _ _ _
          · rw [getKey_setKey_ne _ _ _ _ (by decide)]
            exact getKey_setKey_self _ _ _
          · intro _
            exact getKey_setKey_self _ _ _
  | some .null | some .nan | some (.bool _) | some (.num _) | some (.str _)
  | some (.arr _) =>
      rw [hgd] at h
      cases h

/-- Witness for C3: a model output with no `diagnostics` mapping gets one
created holding the rounded latency and a zero token count. -/
theorem C3_witness :
    ∃ m d, injectDiagnostics [("answer", .str "x")] 1 = some m ∧
      getKey m "diagnostics" = some (.obj d) ∧
      getKey d "latency" = some (.num (round2 1)) ∧
      (tokensAbsent [("answer", .str "x")] = true →
        getKey d "tokens" = some (.num 0)) :=
  C3_latency_and_tokens_injection [("answer", .str "x")] 1 rfl

theorem query_gemini_failure_has_error (raw : ModelRaw) (d : Obj)
    (h : query_gemini raw = .failure d) : hasKey d "error" = true := by
  unfold query_gemini at h
  split at h
  · cases h
    rfl
  · split at h
    · cases h
      rfl
    · split at h
      · cases h
        rfl
      · split at h
        · cases h
          rfl
        · cases h
        · cases h

theorem query_gemini_success_shape (raw : ModelRaw) (p : Obj)
    (h : query_gemini raw = .success p) :
    ∃ o, p = setKey o "diagnostics" (.obj [("model", .str modelName)]) := by
  unfold query_gemini at h
  split at h
  · cases h
  · split at h
    · cases h
    · split at h
      · cases h
      · split at h
        · cases h
        · cases h
          exact ⟨_, rfl⟩
        · cases h

theorem validate_diagnostics_inv (M : Obj) (r : AnalyzeResponseT)
    (h : validateAnalyzeResponse M = some r) :
    ∃ dv, getKey M "diagnostics" = some dv ∧ parseDiagnostics dv = some r.diagnostics := by
  unfold validateAnalyzeResponse at h
  split at h
  · rename_i av gv sv dv hA hG hS hD
    split at h
    · rename_i answer g st d hAs hGp hSp hDp
      cases h
      exact ⟨dv, hD, by simpa using hDp⟩
    · cases h
  · cases h

theorem processModelResponse_gateway_diagnostics (o : Obj) (q : ℚ) (r : AnalyzeResponseT)
    (h : processModelResponse
        (setKey o "diagnostics" (.obj [("model", .str modelName)])) q = .okResponse r) :
    r.diagnostics.tokens = 0 ∧ r.diagnostics.model = modelName := by
  set p := setKey o "diagnostics" (.obj [("model", .str modelName)]) with hp
  have hpd : getKey p "diagnostics" = some (.obj [("model", .str modelName)]) :=
    getKey_setKey_self _ _ _
  have hk : hasKey p "diagnostics" = true := hasKey_setKey_self _ _ _
  have hens : ensureDiagnostics p = p := by
    unfold ensureDiagnostics
    simp [hk]
  have hinj : injectDiagnostics p q = some (setKey p "diagnostics"
      (.obj [("model", .str modelName), ("latency", .num (round2 q)),
             ("tokens", .num 0)])) := by
    simp only [injectDiagnostics, hens, hpd]
    simp [setKey, setTokensDefault, hasKey]
  have hMd : getKey (setKey p "diagnostics"
      (.obj [("model", .str modelName), ("latency", .num (round2 q)),
             ("tokens", .num 0)])) "diagnostics" =
      some (.obj [("model", .str modelName), ("latency", .num (round2 q)),
             ("tokens", .num 0)]) := getKey_setKey_self _ _ _
  unfold processModelResponse at h
  split at h
  · cases h
  · simp only [hinj] at h
    split at h
    · rename_i r' hval
      cases h
      obtain ⟨dv, hdv, hpd2⟩ := validate_diagnostics_inv _ _ hval
      rw [hMd] at hdv
      cases hdv
      have : parseDiagnostics (.obj [("model", .str modelName),
          ("latency", .num (round2 q)), ("tokens", .num 0)]) =
          some ⟨round2 q, modelName, 0⟩ := by
        simp [parseDiagnostics, getKey, asNum, asString, asInt]
      rw [this] at hpd2
      have hdq : r.diagnostics = ⟨round2 q, modelName, 0⟩ := (Option.some.inj hpd2).symm
      rw [hdq]
      exact ⟨rfl, rfl⟩
    · cases h

/-- C9: any request that yields a successfully validated response has
`diagnostics.tokens = 0` and `diagnostics.model` equal to the fixed model
identifier: the gateway replaces any model-emitted `diagnostics` with a
fresh mapping holding only the model name, so the validator's
tokens-absent default always fires and model-reported token counts are
never preserved. -/
theorem C9_tokens_always_zero_model_fixed (env : Env) (req : AnalyzeRequestT)
    (r : AnalyzeResponseT) (h : analyze env req = .okResponse r) :
    r.diagnostics.tokens = 0 ∧ r.diagnostics.model = modelName := by
  unfold analyze at h
  split at h
  · cases h
  · split at h
    · cases h
    · split at h
      · cases h
      · split at h
        · cases h
        · split at h
          · cases h
          · rename_i d hq
            have herr := query_gemini_failure_has_error _ _ hq
            unfold processModelResponse at h
            rw [if_pos herr] at h
            cases h
          · rename_i p hq
            obtain ⟨o, rfl⟩ := query_gemini_success_shape _ _ hq
            exact processModelResponse_gateway_diagnostics o env.elapsed r h

/-- A complete happy-path environment: one catalogued SKU with an image
reference, a context store that always answers, and a model returning a
schema-conforming JSON object. -/
def envHappy : Env where
  catalog := [("SKU1", [("image_gcs_uri", .str "gs://bucket/img.jpg")])]
  contextStore := fun _ => some [("brand_voice", .str "bold")]
  modelCall := fun _ _ _ =>
    { candidates := [{ finishReason := .STOP, safetyRatings := "[]" }],
      text := "\x7b\"answer\":\"ok\",\"grounding\":\x7b\"citations\":[],\"visual_refs\":[]\x7d,\"structured\":\x7b\"attributes\":\x7b\x7d,\"compliance\":\x7b\x7d\x7d\x7d" }
  elapsed := 1/4

def reqHappy : AnalyzeRequestT :=
  { sku := "SKU1", question := none, context_ids := ["rules_v1"], metadata := none }

/-- Witness for C9: a complete happy-path request evaluates to a validated
response whose diagnostics carry a zero token count and the fixed model
name. -/
theorem C9_witness :
    ∃ r, analyze envHappy reqHappy = .okResponse r ∧
      r.diagnostics.tokens = 0 ∧ r.diagnostics.model = modelName := by
  refine ⟨_, rfl, ?_⟩
  exact C9_tokens_always_zero_model_fixed envHappy reqHappy _ rfl

/-- C10: a request whose `question` is the empty string behaves exactly as
one with no question at all — `request.question or <default>` replaces
every falsy question with the fixed default prompt, so the model gateway
never receives an empty question string. -/
theorem C10_empty_question_defaults (env : Env) (sku : String) (ids : List String)
    (meta : Option Obj) :
    analyze env ⟨sku, some "", ids, meta⟩ = analyze env ⟨sku, none, ids, meta⟩ ∧
    effectiveQuestion (some "") = defaultQuestion ∧
    effectiveQuestion none = defaultQuestion :=
  ⟨rfl, rfl, rfl⟩

/-- Environment in which the requested SKU is absent from the catalog. -/
def envNoSku : Env where
  catalog := []
  contextStore := fun _ => none
  modelCall := fun _ _ _ => { candidates := [], text := "" }
  elapsed := 0

/-- Environment whose catalogued SKU row has no image reference. -/
def envNoImage : Env where
  catalog := [("SKU1", [("material", .str "mesh")])]
  contextStore := fun _ => none
  modelCall := fun _ _ _ => { candidates := [], text := "" }
  elapsed := 0

/-- Environment with a valid SKU row but an empty context store. -/
def envNoContext : Env where
  catalog := [("SKU1", [("image_gcs_uri", .str "gs://bucket/img.jpg")])]
  contextStore := fun _ => none
  modelCall := fun _ _ _ => { candidates := [], text := "" }
  elapsed := 0

/-- C1 (the code against the claim): at each of the three early failure
stages — SKU absent from the catalog, spec without an image reference,
context document not found — the handler returns the error payload as a
plain `return` value (the framework's 200 serialisation path), instead of
raising an HTTP error as it does for gateway failures and schema
violations; the code's own comment concedes this should be a proper HTTP
exception. -/
theorem C1_early_failures_returned_not_raised :
    analyze envNoSku ⟨"MISSING", none, [], none⟩ =
      .okDict [("error", .str "SKU 'MISSING' not found in the specification catalog.")] ∧
    analyze envNoImage ⟨"SKU1", none, [], none⟩ =
      .okDict [("error", .str "Image GCS URI not found for SKU: SKU1")] ∧
    analyze envNoContext ⟨"SKU1", none, ["brand_rules_v1"], none⟩ =
      .okDict [("error", .str "Could not load context 'brand_rules_v1' from GCS.")] :=
  ⟨rfl, rfl, rfl⟩
